import Mathlib

/-! Verification of the paddy ECS core data plane.

This file gives a shallow embedding of the core data structures of the
`paddy_ecs` crate — the entity allocator, the component sparse-set storage,
the blob-vector growth policy, the archetype registry, bundle metadata and
tick arithmetic — and proves or refutes the specification claims about them.
Machine integers are modelled as `Nat` with explicit wrapping where the code
wraps; type-erased component values are modelled as opaque `Nat` payloads. -/

namespace Paddy

/-- The number of distinct `u32` values, `2^32`. -/
def U32 : Nat := 4294967296

/-- The largest `u32` value, `u32::MAX`. -/
def U32MAX : Nat := 4294967295

/-! ## Blob vector (`storage/blob_vec.rs`)

Only the `capacity`/`len` bookkeeping is relevant to the growth-policy
claims; the raw byte buffer and the element moves are elided. -/

/-- Capacity and length bookkeeping of `BlobVec`. -/
structure BlobVec where
  capacity : Nat
  len : Nat
deriving DecidableEq

/-- `BlobVec::grow_exact`: the capacity grows by exactly `increment`
(the reallocation itself is elided; overflow of `usize` is fatal in the
code and unreachable over `Nat`). -/
def BlobVec.growExact (b : BlobVec) (increment : Nat) : BlobVec :=
  { b with capacity := b.capacity + increment }

/-- `BlobVec::reserve_exact`: grow by `additional - available_space` when the
remaining capacity is insufficient, otherwise do nothing. -/
def BlobVec.reserveExact (b : BlobVec) (additional : Nat) : BlobVec :=
  if b.capacity - b.len < additional then
    b.growExact (additional - (b.capacity - b.len))
  else b

/-- `BlobVec::reserve`: amortized growth; the increment is
`max(capacity, additional - (capacity - len))`. -/
def BlobVec.reserve (b : BlobVec) (additional : Nat) : BlobVec :=
  if b.capacity - b.len < additional then
    b.growExact (max b.capacity (additional - (b.capacity - b.len)))
  else b

/-- A `BlobVec` with zero capacity and zero length, the state of a freshly
created non-ZST blob before its first reservation. -/
def blobEmpty : BlobVec := ⟨0, 0⟩

/-! ## Ticks (`component/tick.rs`) -/

/-- `CHECK_TICK_THRESHOLD`: minimum world-tick increments between scans. -/
def CHECK_TICK_THRESHOLD : Nat := 518400000

/-- `MAX_CHANGE_AGE = u32::MAX - (2 * CHECK_TICK_THRESHOLD - 1)`. -/
def MAX_CHANGE_AGE : Nat := U32MAX - (2 * CHECK_TICK_THRESHOLD - 1)

/-- Wrapping `u32` subtraction `a - b`, as in `Tick::relative_to`. -/
def wsub32 (a b : Nat) : Nat := (a + (U32 - b % U32)) % U32

/-- `Tick::check_tick`: if the wrapping age of stored tick `t` relative to the
current tick `c` exceeds `MAX_CHANGE_AGE`, clamp `t` to `c - MAX_CHANGE_AGE`
(wrapping); otherwise leave it unchanged. -/
def checkTick (t c : Nat) : Nat :=
  if wsub32 c t > MAX_CHANGE_AGE then wsub32 c MAX_CHANGE_AGE else t

/-! ## Entity allocator (`entity/entity.rs`) -/

/-- `EntityLocation`: the archetype/table coordinates of a live entity. -/
structure EntityLocation where
  archetype_id : Nat
  archetype_row : Nat
  table_id : Nat
  table_row : Nat
deriving DecidableEq

/-- `ArchetypeId::INVALID` (also `TableId::INVALID` etc.): all-ones `u32`. -/
def INVALID_ID : Nat := U32MAX

/-- `EntityLocation::INVALID`: every coordinate is the invalid all-ones id. -/
def EntityLocation.INVALID : EntityLocation :=
  ⟨U32MAX, U32MAX, U32MAX, U32MAX⟩

/-- `Entity`: an index paired with a (non-zero) generation. -/
structure Entity where
  index : Nat
  generation : Nat
deriving DecidableEq

/-- `EntityMeta`: per-index generation and location. -/
structure EntityMeta where
  generation : Nat
  location : EntityLocation
deriving DecidableEq

/-- `EntityMeta::EMPTY`: generation 1, invalid location. -/
def EntityMeta.EMPTY : EntityMeta := ⟨1, EntityLocation.INVALID⟩

/-- The `Entities` allocator state; `free_cursor` is the signed atomic
cursor, modelled as a plain `Int` field. -/
structure Entities where
  meta : List EntityMeta
  pending : List Nat
  free_cursor : Int
  len : Nat
deriving DecidableEq

/-- `Entities::new`. -/
def entitiesNew : Entities := ⟨[], [], 0, 0⟩

/-- Generation bump on `free`:
`NonZeroU32::new(g.wrapping_add(1)).unwrap_or(1)` — wrapping `u32`
successor, with the wrapped-to-zero value replaced by 1. -/
def genSucc (g : Nat) : Nat := if g = U32MAX then 1 else g + 1

/-- `Entities::reserve_entity`: atomically decrement the cursor; a positive
pre-decrement value `n` reuses `pending[n - 1]` with its stored generation,
otherwise index `meta.len() - n` is promised with generation 1. -/
def entitiesReserve (s : Entities) : Entity × Entities :=
  let n := s.free_cursor
  let s1 := { s with free_cursor := n - 1 }
  if n > 0 then
    let id := s.pending.getD (n - 1).toNat 0
    (⟨id, (s.meta.getD id EntityMeta.EMPTY).generation⟩, s1)
  else
    (⟨s.meta.length + (-n).toNat, 1⟩, s1)

/-- `Entities::alloc`: pop a pending index if any (reusing its stored, already
bumped generation) and reset the cursor to the new pending length; otherwise
push a fresh `EMPTY` meta slot. -/
def entitiesAlloc (s : Entities) : Entity × Entities :=
  match s.pending.getLast? with
  | some id =>
      (⟨id, (s.meta.getD id EntityMeta.EMPTY).generation⟩,
       { s with pending := s.pending.dropLast,
                free_cursor := (s.pending.dropLast.length : Int),
                len := s.len + 1 })
  | none =>
      (⟨s.meta.length, 1⟩,
       { s with meta := s.meta ++ [EntityMeta.EMPTY], len := s.len + 1 })

/-- `Entities::free`: validate generation and liveness, bump the generation
(wrapping, skipping zero), clear and return the old location, and push the
index onto `pending` (resetting the cursor to the new pending length).
`NoSuchEntity` is the `Except.error` case. -/
def entitiesFree (s : Entities) (e : Entity) :
    Except Unit (EntityLocation × Entities) :=
  match s.meta[e.index]? with
  | none => .error ()
  | some m =>
      if m.generation ≠ e.generation ∨ m.location = EntityLocation.INVALID then
        .error ()
      else
        .ok (m.location,
          Entities.mk
            (s.meta.set e.index
              (EntityMeta.mk (genSucc m.generation) EntityLocation.INVALID))
            (s.pending ++ [e.index])
            ((s.pending.length + 1 : Nat) : Int)
            (s.len - 1))

/-- `Entities::get`: `None` on a missing slot, a generation mismatch, or an
invalid archetype id in the stored location. -/
def entitiesGet (s : Entities) (e : Entity) : Option EntityLocation :=
  match s.meta[e.index]? with
  | none => none
  | some m =>
      if m.generation ≠ e.generation ∨ m.location.archetype_id = INVALID_ID
      then none
      else some m.location

/-- `Entities::set`: overwrite the location slot at `index`. -/
def entitiesSet (s : Entities) (index : Nat) (location : EntityLocation) :
    Entities :=
  { s with
    meta := s.meta.set index
      (EntityMeta.mk (s.meta.getD index EntityMeta.EMPTY).generation location) }

/-- One `init` callback of `Entities::flush`: hand `(entity, &mut location)`
for index `id` to the callback `f` and store the location it writes. Returns
the updated meta list and the entity passed to the callback. -/
def flushStep (f : Entity → EntityLocation) (meta : List EntityMeta)
    (id : Nat) : List EntityMeta × Entity :=
  let m := meta.getD id EntityMeta.EMPTY
  (meta.set id ⟨m.generation, f ⟨id, m.generation⟩⟩, ⟨id, m.generation⟩)

/-- Fold `flushStep` over a list of indices, collecting the callback calls
in order. -/
def flushAll (f : Entity → EntityLocation) (meta : List EntityMeta) :
    List Nat → List EntityMeta × List Entity
  | [] => (meta, [])
  | id :: rest =>
      let p := flushStep f meta id
      let q := flushAll f p.1 rest
      (q.1, p.2 :: q.2)

/-- `Entities::flush`: a negative cursor first extends `meta` with `EMPTY`
slots and initializes the fresh indices; then the reserved pending indices
(`pending[new_free_cursor..]`) are drained and initialized. Returns the new
state and the entities passed to the `init` callback, in call order. -/
def entitiesFlush (f : Entity → EntityLocation) (s : Entities) :
    Entities × List Entity :=
  let fc := s.free_cursor
  let freshCount := if fc ≥ 0 then 0 else (-fc).toNat
  let oldLen := s.meta.length
  let meta0 := s.meta ++ List.replicate freshCount EntityMeta.EMPTY
  let r1 := flushAll f meta0 ((List.range freshCount).map (fun k => oldLen + k))
  let newFreeCursor := if fc ≥ 0 then fc.toNat else 0
  let r2 := flushAll f r1.1 (s.pending.drop newFreeCursor)
  ({ meta := r2.1,
     pending := s.pending.take newFreeCursor,
     free_cursor := (newFreeCursor : Nat),
     len := s.len + freshCount + (s.pending.length - newFreeCursor) },
   r1.2 ++ r2.2)

/-! ## Component sparse set (`storage/sparse_set.rs`, `storage/table.rs`)

Entities are tracked by their `u32` index (the release-build representation);
a component value is an opaque `Nat` payload; a `Column` slot carries the
value with its `added_tick` and `changed_tick`. -/

/-- One dense slot of a `Column`: the component value with its ticks. -/
structure DenseEntry where
  value : Nat
  added : Nat
  changed : Nat
deriving DecidableEq

/-- Modify the element at position `i` (identity when out of bounds). -/
def listModify (l : List α) (i : Nat) (g : α → α) : List α :=
  match l[i]? with
  | some a => l.set i (g a)
  | none => l

/-- `Vec::swap_remove(i)`: move the last element into slot `i`, then pop. -/
def swapRemove (l : List α) (i : Nat) : List α :=
  match l.getLast? with
  | none => l
  | some last => if i < l.length then (l.set i last).take (l.length - 1) else l

/-- `SparseArray::get`: `values.get(index)` flattened. -/
def sparseGet (sp : List (Option Nat)) (i : Nat) : Option Nat :=
  (sp[i]?).bind id

/-- `SparseArray::insert`: resize with `None`s when `index` is out of range,
then store the value. -/
def sparseInsert (sp : List (Option Nat)) (i : Nat) (v : Nat) :
    List (Option Nat) :=
  let sp1 := if i < sp.length then sp
             else sp ++ List.replicate (i + 1 - sp.length) none
  sp1.set i (some v)

/-- `SparseArray::remove`: take the stored value, leaving `None` behind. -/
def sparseRemove (sp : List (Option Nat)) (i : Nat) :
    Option Nat × List (Option Nat) :=
  match sparseGet sp i with
  | some v => (some v, sp.set i none)
  | none => (none, sp)

/-- `ComponentSparseSet`: the dense column, the parallel entity-index vector,
and the entity-index → dense-row sparse array. -/
structure ComponentSparseSet where
  dense : List DenseEntry
  entities : List Nat
  sparse : List (Option Nat)
deriving DecidableEq

/-- `Column::replace` at `row`: overwrite the value and set only the
`changed_tick`; the `added_tick` is untouched. -/
def columnReplace (dense : List DenseEntry) (row v t : Nat) :
    List DenseEntry :=
  listModify dense row (fun en => ⟨v, en.added, t⟩)

/-- `ComponentSparseSet::insert`: replace in place (updating only the changed
tick) when the entity index is already present; otherwise push a dense row
with both ticks set to `change_tick`, map the entity index to the new row,
and record the entity index. -/
def cssInsert (s : ComponentSparseSet) (e v t : Nat) : ComponentSparseSet :=
  match sparseGet s.sparse e with
  | some d => { s with dense := columnReplace s.dense d v t }
  | none =>
      { dense := s.dense ++ [⟨v, t, t⟩],
        entities := s.entities ++ [e],
        sparse := sparseInsert s.sparse e s.dense.length }

/-- Shared removal path of `ComponentSparseSet::remove` and
`remove_and_forget` once the sparse slot has been taken (`sp1` is the sparse
array with the removed slot cleared, `d` the vacated dense row): swap-remove
the entity vector and the dense column, and when the removed row was not the
last one redirect the sparse slot of the swapped-in entity to `d`. -/
def cssRemoveAt (s : ComponentSparseSet) (sp1 : List (Option Nat)) (d : Nat) :
    ComponentSparseSet :=
  if d = s.dense.length - 1 then
    ⟨swapRemove s.dense d, swapRemove s.entities d, sp1⟩
  else
    match (swapRemove s.entities d)[d]? with
    | some swapped =>
        ⟨swapRemove s.dense d, swapRemove s.entities d,
          match sparseGet sp1 swapped with
          | some _ => sp1.set swapped (some d)
          | none => sp1⟩
    | none => ⟨swapRemove s.dense d, swapRemove s.entities d, sp1⟩

/-- `ComponentSparseSet::remove`: drop the component value; `true` iff the
entity index was present. -/
def cssRemove (s : ComponentSparseSet) (e : Nat) :
    Bool × ComponentSparseSet :=
  match sparseRemove s.sparse e with
  | (some d, sp1) => (true, cssRemoveAt s sp1 d)
  | (none, _) => (false, s)

/-- `ComponentSparseSet::remove_and_forget`: same state change as `remove`,
but the removed value is handed back to the caller. -/
def cssRemoveAndForget (s : ComponentSparseSet) (e : Nat) :
    Option Nat × ComponentSparseSet :=
  match sparseRemove s.sparse e with
  | (some d, sp1) => ((s.dense[d]?).map DenseEntry.value, cssRemoveAt s sp1 d)
  | (none, _) => (none, s)

/-- `ComponentSparseSet::clear`. -/
def cssClear (_s : ComponentSparseSet) : ComponentSparseSet := ⟨[], [], []⟩

/-- The sparse-set invariant: `sparse[i] = some j` iff dense row `j` exists
and `entities[j] = i`, with the dense column and the entity vector of equal
length. -/
def cssInv (s : ComponentSparseSet) : Prop :=
  s.dense.length = s.entities.length ∧
  (∀ j x, s.entities[j]? = some x → sparseGet s.sparse x = some j) ∧
  (∀ i j, sparseGet s.sparse i = some j → s.entities[j]? = some i)

/-- A bounded, decidable restatement of `cssInv`, used to evaluate the
invariant on concrete states. -/
def cssInvB (s : ComponentSparseSet) : Prop :=
  s.dense.length = s.entities.length ∧
  (∀ j, j < s.entities.length →
    sparseGet s.sparse (s.entities.getD j 0) = some j) ∧
  (∀ i, i < s.sparse.length →
    sparseGet s.sparse i = none ∨
    (s.entities.getD ((sparseGet s.sparse i).getD 0) 0 = i ∧
     (sparseGet s.sparse i).getD 0 < s.entities.length))

instance (s : ComponentSparseSet) : Decidable (cssInvB s) := by
  unfold cssInvB
  infer_instance

/-- A concrete sparse set with two entities (indices 4 and 7), used as the
C3 witness state. -/
def cssW : ComponentSparseSet :=
  ⟨[⟨10, 1, 1⟩, ⟨20, 2, 2⟩], [4, 7],
   [none, none, none, none, some 0, none, none, some 1]⟩

/-! ## Bundle metadata (`bundle.rs`) -/

/-- `Vec::dedup`: remove consecutive duplicates. -/
def dedupConsec : List Nat → List Nat
  | [] => []
  | [a] => [a]
  | a :: b :: rest =>
      if a = b then dedupConsec (b :: rest) else a :: dedupConsec (b :: rest)

/-- The duplicate scan of `BundleInfo::new`: walk the ids with a seen-set,
recording in `dups` (in encounter order) every id already seen. -/
def dupsAux (seen dups : List Nat) : List Nat → List Nat
  | [] => dups
  | c :: rest =>
      if c ∈ seen then dupsAux seen (dups ++ [c]) rest
      else dupsAux (seen ++ [c]) dups rest

/-- The ids reported as duplicates by `BundleInfo::new`. -/
def dupsOf (ids : List Nat) : List Nat := dupsAux [] [] ids

/-- `BundleInfo`: the bundle id and its component ids in bundle order. -/
structure BundleInfo where
  id : Nat
  component_ids : List Nat
deriving DecidableEq

/-- `BundleInfo::new`: sort and consecutively dedup a copy of the ids; when
the deduplicated length differs the constructor fails (`panic!`) with a
message naming the duplicated components (`nameOf` is the registry's
component-name lookup); otherwise the ids are kept in bundle order. -/
def bundleInfoNew (bundle_type_name : String) (nameOf : Nat → String)
    (component_ids : List Nat) (id : Nat) : Except String BundleInfo :=
  if (dedupConsec (component_ids.mergeSort (fun a b => decide (a ≤ b)))).length
      ≠ component_ids.length then
    .error ("Bundle " ++ bundle_type_name ++ " has duplicate components: "
      ++ String.intercalate ", " ((dupsOf component_ids).map nameOf))
  else .ok ⟨id, component_ids⟩

/-! ## Archetypes and the archetype registry (`archetype/archetype.rs`) -/

/-- `StorageType` (`storage/mod.rs`). -/
inductive StorageTy where
  | Table
  | SparseSet
deriving DecidableEq

/-- An `Archetype`: its id, the id of its backing table, and its component
map — component ids tagged with their storage type, in insertion order. -/
structure Archetype where
  id : Nat
  table_id : Nat
  components : List (Nat × StorageTy)
deriving DecidableEq

/-- `Archetype::new`: insert the table components, then the sparse-set
components, into the archetype's component sparse set (which keeps
insertion order). -/
def archetypeNew (id table_id : Nat)
    (table_components sparse_set_components : List Nat) : Archetype :=
  ⟨id, table_id,
   table_components.map (fun c => (c, StorageTy.Table))
     ++ sparse_set_components.map (fun c => (c, StorageTy.SparseSet))⟩

/-- `Archetype::contains`. -/
def archContains (a : Archetype) (c : Nat) : Bool :=
  (a.components.find? (fun p => p.1 == c)).isSome

/-- `Archetype::table_components` as implemented: it iterates the whole
component map and returns every component id, regardless of storage type
(unlike `sparse_set_components`, it does not filter). -/
def tableComponents (a : Archetype) : List Nat :=
  a.components.map Prod.fst

/-- `Archetype::sparse_set_components`: the component ids whose storage
type is `SparseSet`. -/
def sparseSetComponents (a : Archetype) : List Nat :=
  (a.components.filter (fun p => p.2 == StorageTy.SparseSet)).map Prod.fst

/-- The `(table_ids, sparse_ids)` identity of an archetype: its component
ids of each storage class, in insertion order. -/
def archKey (a : Archetype) : List Nat × List Nat :=
  ((a.components.filter (fun p => p.2 == StorageTy.Table)).map Prod.fst,
   (a.components.filter (fun p => p.2 == StorageTy.SparseSet)).map Prod.fst)

/-- The archetype registry `Archetypes`: the dense archetype vector, the
`by_components` dedup map (an association list keyed by the
`(table_components, sparse_set_components)` pair), and the
archetype-component-id counter. -/
structure Archetypes where
  archetypes : List Archetype
  by_components : List ((List Nat × List Nat) × Nat)
  archetype_component_count : Nat
deriving DecidableEq

/-- `Archetypes::new`: the registration of the empty archetype is commented
out in the source, so the registry starts with no archetypes at all. -/
def archetypesNew : Archetypes := ⟨[], [], 0⟩

/-- Lookup in the `by_components` map. -/
def assocLookup : List ((List Nat × List Nat) × Nat) → (List Nat × List Nat)
    → Option Nat
  | [], _ => none
  | (k, v) :: rest, key => if k = key then some v else assocLookup rest key

/-- `Archetypes::get_id_or_insert`: look up the sorted
`(table_components, sparse_set_components)` key; on a miss, build a new
archetype at the next id (consuming one archetype-component id per
component) and record the key. -/
def getIdOrInsert (s : Archetypes) (table_id : Nat)
    (table_components sparse_set_components : List Nat) : Nat × Archetypes :=
  match assocLookup s.by_components
      (table_components, sparse_set_components) with
  | some id => (id, s)
  | none =>
      (s.archetypes.length,
       ⟨s.archetypes
          ++ [archetypeNew s.archetypes.length table_id table_components
                sparse_set_components],
        s.by_components
          ++ [((table_components, sparse_set_components),
               s.archetypes.length)],
        s.archetype_component_count + table_components.length
          + sparse_set_components.length⟩)

/-- `Archetypes::get`. -/
def archetypesGet (s : Archetypes) (id : Nat) : Option Archetype :=
  s.archetypes[id]?

/-- Registry states reachable from `Archetypes::new` by
`get_id_or_insert` calls. -/
inductive ReachableArch : Archetypes → Prop where
  | init : ReachableArch archetypesNew
  | step (s : Archetypes) (table_id : Nat) (tc sc : List Nat) :
      ReachableArch s → ReachableArch (getIdOrInsert s table_id tc sc).2

/-- The registry invariant: the `by_components` map sends `k` to `i` exactly
when archetype `i` exists and has identity `k`. -/
def archInv (s : Archetypes) : Prop :=
  ∀ k i, assocLookup s.by_components k = some i ↔
    ∃ a, s.archetypes[i]? = some a ∧ archKey a = k

/-! ## The add-bundle edge key computation (`bundle.rs`,
`BundleInfo::add_bundle_to_archetype`) -/

/-- `ComponentStatus` (`archetype/edge.rs`). -/
inductive ComponentStatus where
  | Added
  | Mutated
deriving DecidableEq

/-- The partition loop of `add_bundle_to_archetype`: each bundle component
already in the archetype is `Mutated`; a new component is `Added` and pushed
into the new-table or new-sparse list according to its registry storage
type (`storageOf`). Returns
`(new_table_components, new_sparse_set_components, bundle_status)`. -/
def addBundleScan (storageOf : Nat → StorageTy) (a : Archetype)
    (ids : List Nat) : List Nat × List Nat × List ComponentStatus :=
  ids.foldl (fun acc c =>
    if archContains a c then
      (acc.1, acc.2.1, acc.2.2 ++ [ComponentStatus.Mutated])
    else match storageOf c with
      | .Table => (acc.1 ++ [c], acc.2.1, acc.2.2 ++ [ComponentStatus.Added])
      | .SparseSet =>
          (acc.1, acc.2.1 ++ [c], acc.2.2 ++ [ComponentStatus.Added]))
    ([], [], [])

/-- The sorted table-id key `add_bundle_to_archetype` hands to
`Tables::get_or_insert` (and uses as the table part of the archetype key)
when the bundle adds at least one component: when there are no new
table-class components the current archetype's `table_components()` is
collected as-is; otherwise the new table components are extended with
`table_components()` and sorted. -/
def addBundleTableKey (storageOf : Nat → StorageTy) (a : Archetype)
    (ids : List Nat) : List Nat :=
  if (addBundleScan storageOf a ids).1 = [] then tableComponents a
  else ((addBundleScan storageOf a ids).1 ++ tableComponents a).mergeSort
    (fun x y => decide (x ≤ y))

/-- The sparse-set part of the archetype key computed by
`add_bundle_to_archetype`, analogously from `sparse_set_components()`. -/
def addBundleSparseKey (storageOf : Nat → StorageTy) (a : Archetype)
    (ids : List Nat) : List Nat :=
  if (addBundleScan storageOf a ids).2.1 = [] then sparseSetComponents a
  else ((addBundleScan storageOf a ids).2.1
    ++ sparseSetComponents a).mergeSort (fun x y => decide (x ≤ y))

/-- The table key the specification prescribes for the same step: the
merge-and-sort of the archetype's **table-storage-class** component ids with
the newly added table-class ids. -/
def specTableKey (storageOf : Nat → StorageTy) (a : Archetype)
    (ids : List Nat) : List Nat :=
  if (addBundleScan storageOf a ids).1 = [] then
    (a.components.filter (fun p => p.2 == StorageTy.Table)).map Prod.fst
  else ((addBundleScan storageOf a ids).1
    ++ (a.components.filter (fun p => p.2 == StorageTy.Table)).map
        Prod.fst).mergeSort (fun x y => decide (x ≤ y))

/-- A registry where component 1 is sparse-set class and everything else is
table class. -/
def storW : Nat → StorageTy :=
  fun c => if c = 1 then StorageTy.SparseSet else StorageTy.Table

/-- An archetype with table component 0 and sparse-set component 1. -/
def archW : Archetype := archetypeNew 1 0 [0] [1]

/-! ## Theorems -/

/-- Wrapping subtraction undoes itself: `a - (a - b) = b` for `u32` values. -/
theorem wsub32_wsub32_self (a b : Nat) (ha : a < U32) (hb : b < U32) :
    wsub32 a (wsub32 a b) = b := by
  have hU : U32 = 4294967296 := rfl
  unfold wsub32
  have hb1 : b % U32 = b := Nat.mod_eq_of_lt hb
  rw [hb1]
  rcases le_or_lt b a with hba | hba
  · have hx : (a + (U32 - b)) % U32 = a - b := by
      have h1 : a + (U32 - b) = (a - b) + 1 * U32 := by omega
      rw [h1, Nat.add_mul_mod_self_right]
      exact Nat.mod_eq_of_lt (by omega)
    rw [hx]
    have h2 : (a - b) % U32 = a - b := Nat.mod_eq_of_lt (by omega)
    rw [h2]
    have h3 : a + (U32 - (a - b)) = b + 1 * U32 := by omega
    rw [h3, Nat.add_mul_mod_self_right]
    exact Nat.mod_eq_of_lt hb
  · have hx : (a + (U32 - b)) % U32 = a + (U32 - b) :=
      Nat.mod_eq_of_lt (by omega)
    rw [hx]
    have h2 : (a + (U32 - b)) % U32 = a + (U32 - b) :=
      Nat.mod_eq_of_lt (by omega)
    rw [h2]
    have h3 : a + (U32 - (a + (U32 - b))) = b := by omega
    rw [h3]
    exact Nat.mod_eq_of_lt hb

/-- C8: after `t.check_tick(c)` the wrapping age of the stored tick relative
to the current world tick `c` is at most `MAX_CHANGE_AGE`, and a tick whose
age was already at most `MAX_CHANGE_AGE` is left unchanged. -/
theorem C8_check_tick_clamps (t c : Nat) (_ht : t < U32) (hc : c < U32) :
    wsub32 c (checkTick t c) ≤ MAX_CHANGE_AGE ∧
    (wsub32 c t ≤ MAX_CHANGE_AGE → checkTick t c = t) := by
  have hmax : MAX_CHANGE_AGE < U32 := by decide
  constructor
  · unfold checkTick
    split
    · rw [wsub32_wsub32_self c MAX_CHANGE_AGE hc hmax]
    · omega
  · intro h
    unfold checkTick
    rw [if_neg (by omega)]

/-- Witness for C8 at `t = 0`, `c = 5`. -/
theorem C8_check_tick_clamps_witness :
    (0 : Nat) < U32 ∧ (5 : Nat) < U32 ∧
    (wsub32 5 (checkTick 0 5) ≤ MAX_CHANGE_AGE ∧
     (wsub32 5 0 ≤ MAX_CHANGE_AGE → checkTick 0 5 = 0)) :=
  ⟨by decide, by decide, C8_check_tick_clamps 0 5 (by decide) (by decide)⟩

/-- C7 counterexample: on the empty blob, `reserve(1)` leaves capacity `1`,
not twice the maximum of the current capacity and the needed amount (which
is `2` on either reading of "needed"). -/
theorem C7_counterexample :
    (blobEmpty.reserve 1).capacity = 1 ∧
    2 * max blobEmpty.capacity (1 - (blobEmpty.capacity - blobEmpty.len)) = 2 ∧
    2 * max blobEmpty.capacity (blobEmpty.len + 1) = 2 ∧
    ¬ (blobEmpty.reserve 1).capacity =
        2 * max blobEmpty.capacity (blobEmpty.len + 1) := by
  decide

/-- C7 (amended): `reserve_exact(n)` with remaining capacity `r < n` grows the
capacity by exactly `n - r`; the amortized `reserve(n)` with `r < n` grows the
capacity by `max(capacity, n - r)`, i.e. to `max(2 * capacity, len + n)`
(doubling only when the old capacity is at least the needed increment); both
leave the capacity unchanged when the remaining capacity suffices. -/
theorem C7_growth_policy (b : BlobVec) (n : Nat) (hlen : b.len ≤ b.capacity) :
    (b.capacity - b.len < n →
      (b.reserveExact n).capacity = b.capacity + (n - (b.capacity - b.len))) ∧
    (n ≤ b.capacity - b.len → (b.reserveExact n).capacity = b.capacity) ∧
    (b.capacity - b.len < n →
      (b.reserve n).capacity
        = b.capacity + max b.capacity (n - (b.capacity - b.len)) ∧
      (b.reserve n).capacity = max (2 * b.capacity) (b.len + n)) ∧
    (n ≤ b.capacity - b.len → (b.reserve n).capacity = b.capacity) := by
  unfold BlobVec.reserveExact BlobVec.reserve BlobVec.growExact
  refine ⟨?_, ?_, ?_, ?_⟩ <;> intro h
  · rw [if_pos h]
  · rw [if_neg (by omega)]
  · rw [if_pos h]
    constructor
    · rfl
    · simp only
      omega
  · rw [if_neg (by omega)]

/-- Witness for C7 at the empty blob and `n = 1`. -/
theorem C7_growth_policy_witness :
    blobEmpty.len ≤ blobEmpty.capacity ∧
    ((blobEmpty.capacity - blobEmpty.len < 1 →
      (blobEmpty.reserveExact 1).capacity
        = blobEmpty.capacity + (1 - (blobEmpty.capacity - blobEmpty.len))) ∧
    (1 ≤ blobEmpty.capacity - blobEmpty.len →
      (blobEmpty.reserveExact 1).capacity = blobEmpty.capacity) ∧
    (blobEmpty.capacity - blobEmpty.len < 1 →
      (blobEmpty.reserve 1).capacity
        = blobEmpty.capacity
            + max blobEmpty.capacity (1 - (blobEmpty.capacity - blobEmpty.len)) ∧
      (blobEmpty.reserve 1).capacity
        = max (2 * blobEmpty.capacity) (blobEmpty.len + 1)) ∧
    (1 ≤ blobEmpty.capacity - blobEmpty.len →
      (blobEmpty.reserve 1).capacity = blobEmpty.capacity)) :=
  ⟨by decide, C7_growth_policy blobEmpty 1 (by decide)⟩

/-- The wrap-skip-zero successor never maps a generation to itself. -/
theorem genSucc_ne (g : Nat) : genSucc g ≠ g := by
  have hM : U32MAX = 4294967295 := rfl
  unfold genSucc
  split
  · omega
  · omega

/-- C1: freeing a live entity `e1` validates its generation, clears and
returns its old location, and pushes its index onto `pending`; an immediately
following `alloc` yields `e2` with `e2.index = e1.index` and
`e2.generation = genSucc e1.generation` (wrapping, skipping zero); afterwards
`get e1` returns `none`, and once the new location is set, `get e2` returns
it. -/
theorem C1_free_then_alloc (s : Entities) (e1 : Entity) (loc : EntityLocation)
    (hlive : entitiesGet s e1 = some loc) :
    ∃ s1 : Entities,
      entitiesFree s e1 = .ok (loc, s1) ∧
      s1.pending = s.pending ++ [e1.index] ∧
      (entitiesAlloc s1).1.index = e1.index ∧
      (entitiesAlloc s1).1.generation = genSucc e1.generation ∧
      entitiesGet (entitiesAlloc s1).2 e1 = none ∧
      (∀ newLoc : EntityLocation, newLoc.archetype_id ≠ INVALID_ID →
        entitiesGet (entitiesSet (entitiesAlloc s1).2 e1.index newLoc)
          (entitiesAlloc s1).1 = some newLoc) := by
  unfold entitiesGet at hlive
  split at hlive
  · simp at hlive
  rename_i m hm
  split at hlive
  · simp at hlive
  rename_i hcond
  push_neg at hcond
  obtain ⟨hgen, harch⟩ := hcond
  have hloc : m.location = loc := by injection hlive
  have hinv : m.location ≠ EntityLocation.INVALID := by
    intro h
    rw [h] at harch
    exact harch rfl
  have hlt : e1.index < s.meta.length := by
    by_contra h
    rw [List.getElem?_eq_none (by omega)] at hm
    exact absurd hm (by simp)
  refine ⟨Entities.mk
      (s.meta.set e1.index
        (EntityMeta.mk (genSucc e1.generation) EntityLocation.INVALID))
      (s.pending ++ [e1.index])
      ((s.pending.length + 1 : Nat) : Int)
      (s.len - 1), ?_, ?_, ?_, ?_, ?_, ?_⟩
  · simp only [entitiesFree, hm]
    rw [if_neg (by push_neg; exact ⟨hgen, hinv⟩), hloc, hgen]
  · rfl
  · simp [entitiesAlloc]
  · simp only [entitiesAlloc, List.getLast?_concat, List.dropLast_concat]
    simp only [List.getD, List.get?_eq_getElem?, List.getElem?_set_self hlt,
      Option.getD_some]
  · simp only [entitiesAlloc, List.getLast?_concat]
    unfold entitiesGet
    simp only [List.getElem?_set_self hlt]
    simp [EntityLocation.INVALID, INVALID_ID]
  · intro newLoc hnew
    simp only [entitiesAlloc, List.getLast?_concat, List.dropLast_concat]
    unfold entitiesSet entitiesGet
    simp only [List.getD, List.get?_eq_getElem?, List.getElem?_set_self hlt,
      Option.getD_some, List.set_set, List.getElem?_set_self hlt]
    rw [if_neg (by push_neg; exact ⟨rfl, hnew⟩)]

/-- Witness for C1: a single live entity at index 0, generation 1. -/
theorem C1_free_then_alloc_witness :
    entitiesGet ⟨[⟨1, ⟨0, 0, 0, 0⟩⟩], [], 1, 1⟩ ⟨0, 1⟩ = some ⟨0, 0, 0, 0⟩ ∧
    (∃ s1 : Entities,
      entitiesFree ⟨[⟨1, ⟨0, 0, 0, 0⟩⟩], [], 1, 1⟩ ⟨0, 1⟩ = .ok (⟨0, 0, 0, 0⟩, s1) ∧
      s1.pending = ([] : List Nat) ++ [(0 : Nat)] ∧
      (entitiesAlloc s1).1.index = 0 ∧
      (entitiesAlloc s1).1.generation = genSucc 1 ∧
      entitiesGet (entitiesAlloc s1).2 ⟨0, 1⟩ = none ∧
      (∀ newLoc : EntityLocation, newLoc.archetype_id ≠ INVALID_ID →
        entitiesGet (entitiesSet (entitiesAlloc s1).2 0 newLoc)
          (entitiesAlloc s1).1 = some newLoc)) :=
  ⟨by decide, C1_free_then_alloc ⟨[⟨1, ⟨0, 0, 0, 0⟩⟩], [], 1, 1⟩ ⟨0, 1⟩
    ⟨0, 0, 0, 0⟩ (by decide)⟩

/-- C4: from a state with no outstanding reservations
(`free_cursor == pending.len`), `reserve_entity()` followed by `flush(f)`
invokes `f` exactly once, for the reserved entity; a fresh index extends
`meta` by exactly one slot while a pending index is drained from `pending`
exactly once; and after the flush `free_cursor == pending.len` again. -/
theorem C4_reserve_flush (s : Entities) (f : Entity → EntityLocation)
    (hq : s.free_cursor = (s.pending.length : Int)) :
    (entitiesFlush f (entitiesReserve s).2).2 = [(entitiesReserve s).1] ∧
    (entitiesFlush f (entitiesReserve s).2).1.free_cursor
      = ((entitiesFlush f (entitiesReserve s).2).1.pending.length : Int) ∧
    (s.pending = [] →
      (entitiesFlush f (entitiesReserve s).2).1.meta.length
        = s.meta.length + 1) ∧
    (s.pending ≠ [] →
      (entitiesFlush f (entitiesReserve s).2).1.meta.length = s.meta.length ∧
      (entitiesFlush f (entitiesReserve s).2).1.pending.length + 1
        = s.pending.length) := by
  rcases List.eq_nil_or_concat s.pending with hp | ⟨L, b, hp⟩
  · have hfc : s.free_cursor = 0 := by rw [hq, hp]; rfl
    have hres : entitiesReserve s
        = (⟨s.meta.length, 1⟩, { s with free_cursor := -1 }) := by
      simp [entitiesReserve, hfc]
    rw [hres]
    have hflu : entitiesFlush f { s with free_cursor := -1 }
        = ({ meta := (s.meta ++ [EntityMeta.EMPTY]).set s.meta.length
               (EntityMeta.mk 1 (f ⟨s.meta.length, 1⟩)),
             pending := [],
             free_cursor := 0,
             len := s.len + 1 },
           [⟨s.meta.length, 1⟩]) := by
      simp [entitiesFlush, flushAll, flushStep, hp, List.getD,
        List.getElem?_concat_length, EntityMeta.EMPTY]
    rw [hflu]
    refine ⟨rfl, rfl, fun _ => ?_, fun h => absurd hp h⟩
    simp
  · have hb : s.pending.getD L.length 0 = b := by
      rw [hp]
      simp [List.getD, List.getElem?_concat_length, List.concat_eq_append]
    have hlen : s.pending.length = L.length + 1 := by
      rw [hp]; simp [List.concat_eq_append]
    have hfc : s.free_cursor = (L.length + 1 : Nat) := by
      rw [hq, hlen]
    have htn : ((s.free_cursor - 1).toNat) = L.length := by
      rw [hfc]; omega
    have hres : entitiesReserve s
        = (⟨b, (s.meta.getD b EntityMeta.EMPTY).generation⟩,
           { s with free_cursor := s.free_cursor - 1 }) := by
      unfold entitiesReserve
      rw [if_pos (by rw [hfc]; omega), htn, hb]
    rw [hres]
    have hdrop : s.pending.drop L.length = [b] := by
      rw [hp, List.concat_eq_append, List.drop_left]
    have htake : s.pending.take L.length = L := by
      rw [hp, List.concat_eq_append, List.take_left]
    have hge : ((s.free_cursor - 1) ≥ 0) := by rw [hfc]; omega
    have htn2 : (s.free_cursor - 1).toNat = L.length := htn
    have hflu : entitiesFlush f { s with free_cursor := s.free_cursor - 1 }
        = ({ meta := s.meta.set b
               (EntityMeta.mk (s.meta.getD b EntityMeta.EMPTY).generation
                 (f ⟨b, (s.meta.getD b EntityMeta.EMPTY).generation⟩)),
             pending := L,
             free_cursor := (L.length : Nat),
             len := s.len + 0 + (s.pending.length - L.length) },
           [⟨b, (s.meta.getD b EntityMeta.EMPTY).generation⟩]) := by
      unfold entitiesFlush
      simp only [hge, if_pos, htn2, hdrop, htake]
      simp [flushAll, flushStep]
    rw [hflu]
    refine ⟨rfl, by simp, fun h => ?_, fun _ => ⟨by simp, by simp [hlen]⟩⟩
    rw [hp] at h
    simp [List.concat_eq_append] at h

/-- Witness for C4: the empty allocator state and a constant callback. -/
theorem C4_reserve_flush_witness :
    entitiesNew.free_cursor = (entitiesNew.pending.length : Int) ∧
    ((entitiesFlush (fun _ => EntityLocation.INVALID)
        (entitiesReserve entitiesNew).2).2
      = [(entitiesReserve entitiesNew).1] ∧
    (entitiesFlush (fun _ => EntityLocation.INVALID)
        (entitiesReserve entitiesNew).2).1.free_cursor
      = ((entitiesFlush (fun _ => EntityLocation.INVALID)
          (entitiesReserve entitiesNew).2).1.pending.length : Int) ∧
    (entitiesNew.pending = [] →
      (entitiesFlush (fun _ => EntityLocation.INVALID)
          (entitiesReserve entitiesNew).2).1.meta.length
        = entitiesNew.meta.length + 1) ∧
    (entitiesNew.pending ≠ [] →
      (entitiesFlush (fun _ => EntityLocation.INVALID)
          (entitiesReserve entitiesNew).2).1.meta.length
        = entitiesNew.meta.length ∧
      (entitiesFlush (fun _ => EntityLocation.INVALID)
          (entitiesReserve entitiesNew).2).1.pending.length + 1
        = entitiesNew.pending.length)) :=
  ⟨rfl, C4_reserve_flush entitiesNew (fun _ => EntityLocation.INVALID) rfl⟩

theorem listModify_length (l : List α) (i : Nat) (g : α → α) :
    (listModify l i g).length = l.length := by
  unfold listModify
  split <;> simp

theorem sparseGet_insert (sp : List (Option Nat)) (i v x : Nat) :
    sparseGet (sparseInsert sp i v) x
      = if x = i then some v else sparseGet sp x := by
  unfold sparseInsert sparseGet
  by_cases hi : i < sp.length
  · rw [if_pos hi]
    simp only [List.getElem?_set]
    by_cases hxi : x = i
    · subst hxi
      rw [if_pos rfl, if_pos hi, if_pos rfl]
      rfl
    · rw [if_neg (fun h => hxi h.symm), if_neg hxi]
  · rw [if_neg hi]
    have hlen : i < (sp ++ List.replicate (i + 1 - sp.length) none).length := by
      simp; omega
    simp only [List.getElem?_set]
    by_cases hxi : x = i
    · subst hxi
      rw [if_pos rfl, if_pos hlen, if_pos rfl]
      rfl
    · rw [if_neg (fun h => hxi h.symm), if_neg hxi]
      by_cases hx : x < sp.length
      · rw [List.getElem?_append_left hx]
      · have hr : sp[x]? = none := List.getElem?_eq_none (by omega)
        rw [hr]
        by_cases hx2 : x < (sp ++ List.replicate (i + 1 - sp.length) none).length
        · rw [List.getElem?_append_right (by omega), List.getElem?_replicate,
            if_pos (by simp at hx2; omega)]
          rfl
        · rw [List.getElem?_eq_none (by omega)]

theorem sparseGet_set_none_self (sp : List (Option Nat)) (i : Nat) :
    sparseGet (sp.set i none) i = none := by
  by_cases hi : i < sp.length
  · simp [sparseGet, List.getElem?_set, hi]
  · simp [sparseGet, List.getElem?_set, hi, List.getElem?_eq_none (by omega : sp.length ≤ i)]

theorem sparseGet_set_ne (sp : List (Option Nat)) (i x : Nat) (o : Option Nat)
    (h : x ≠ i) : sparseGet (sp.set i o) x = sparseGet sp x := by
  unfold sparseGet
  rw [List.getElem?_set_ne (fun hh => h hh.symm)]

theorem sparseGet_set_some_self (sp : List (Option Nat)) (i v : Nat)
    (h : i < sp.length) : sparseGet (sp.set i (some v)) i = some v := by
  unfold sparseGet
  rw [List.getElem?_set_self h]
  rfl

theorem sparseGet_lt_length (sp : List (Option Nat)) (i j : Nat)
    (h : sparseGet sp i = some j) : i < sp.length := by
  by_contra hc
  unfold sparseGet at h
  rw [List.getElem?_eq_none (by omega)] at h
  exact absurd h (by simp)

theorem swapRemove_length (l : List α) (i : Nat) (h : i < l.length) :
    (swapRemove l i).length = l.length - 1 := by
  unfold swapRemove
  cases hl : l.getLast? with
  | none =>
      rw [List.getLast?_eq_none_iff] at hl
      subst hl
      simp at h
  | some last =>
      dsimp only
      rw [if_pos h]
      simp [List.length_take]

theorem swapRemove_getElem? (l : List α) (i j : Nat) (h : i < l.length) :
    (swapRemove l i)[j]?
      = if j < l.length - 1 then
          (if j = i then l[l.length - 1]? else l[j]?)
        else none := by
  unfold swapRemove
  cases hl : l.getLast? with
  | none =>
      rw [List.getLast?_eq_none_iff] at hl
      subst hl
      simp at h
  | some last =>
      dsimp only
      rw [if_pos h]
      rw [List.getLast?_eq_getElem?] at hl
      rw [List.getElem?_take]
      by_cases hj : j < l.length - 1
      · rw [if_pos hj, if_pos hj]
        by_cases hji : j = i
        · subst hji
          simp [List.getElem?_set, h, hl]
        · rw [List.getElem?_set_ne (fun hh => hji hh.symm), if_neg hji]
      · rw [if_neg hj, if_neg hj]

theorem getElem?_some_lt {l : List α} {i : Nat} {a : α} (h : l[i]? = some a) :
    i < l.length := by
  by_contra hc
  rw [List.getElem?_eq_none (by omega)] at h
  exact absurd h (by simp)

/-- `insert` preserves the sparse-set invariant. -/
theorem cssInv_insert (s : ComponentSparseSet) (e v t : Nat)
    (hinv : cssInv s) : cssInv (cssInsert s e v t) := by
  obtain ⟨hlen, h2, h3⟩ := hinv
  unfold cssInsert
  cases he : sparseGet s.sparse e with
  | some d =>
      dsimp only
      refine ⟨?_, h2, h3⟩
      simp [columnReplace, listModify_length, hlen]
  | none =>
      dsimp only
      refine ⟨by simp [hlen], ?_, ?_⟩
      · intro j x hjx
        rw [sparseGet_insert]
        rcases lt_trichotomy j s.entities.length with hj | hj | hj
        · rw [List.getElem?_append_left hj] at hjx
          have hx := h2 j x hjx
          have hxe : x ≠ e := by
            intro hxe
            rw [hxe, he] at hx
            exact absurd hx (by simp)
          rw [if_neg hxe]
          exact hx
        · subst hj
          rw [List.getElem?_concat_length] at hjx
          have hx : x = e := by
            have := hjx
            injection this with h
            exact h.symm
          rw [if_pos hx, hlen]
        · rw [List.getElem?_eq_none (by simp; omega)] at hjx
          exact absurd hjx (by simp)
      · intro i j hij
        rw [sparseGet_insert] at hij
        by_cases hie : i = e
        · rw [if_pos hie] at hij
          have hj : j = s.dense.length := by
            injection hij with h
            exact h.symm
          subst hj
          subst hie
          rw [hlen, List.getElem?_concat_length]
        · rw [if_neg hie] at hij
          have hold := h3 i j hij
          rw [List.getElem?_append_left (getElem?_some_lt hold)]
          exact hold

/-- The removal path preserves the invariant, and when the removed dense row
is not the last one, the last entity is swapped into the vacated row and its
sparse slot is redirected there. -/
theorem cssInv_removeAt (s : ComponentSparseSet) (e d : Nat)
    (hinv : cssInv s) (hd : sparseGet s.sparse e = some d) :
    cssInv (cssRemoveAt s (s.sparse.set e none) d) ∧
    (d + 1 < s.entities.length →
      (cssRemoveAt s (s.sparse.set e none) d).entities[d]?
        = s.entities[s.entities.length - 1]? ∧
      (∀ last, s.entities[s.entities.length - 1]? = some last →
        sparseGet (cssRemoveAt s (s.sparse.set e none) d).sparse last
          = some d)) := by
  obtain ⟨hlen, h2, h3⟩ := hinv
  have hde : s.entities[d]? = some e := h3 e d hd
  have hdn : d < s.entities.length := getElem?_some_lt hde
  have hdd : d < s.dense.length := by omega
  unfold cssRemoveAt
  by_cases hcase : d = s.dense.length - 1
  · rw [if_pos hcase]
    have hdl : d = s.entities.length - 1 := by omega
    refine ⟨⟨?_, ?_, ?_⟩, ?_⟩
    · rw [swapRemove_length s.dense d hdd, swapRemove_length s.entities d hdn,
        hlen]
    · intro j x hjx
      rw [swapRemove_getElem? s.entities d j hdn] at hjx
      by_cases hjlt : j < s.entities.length - 1
      · rw [if_pos hjlt] at hjx
        rw [if_neg (by omega)] at hjx
        have hx := h2 j x hjx
        have hxe : x ≠ e := by
          intro hxe
          rw [hxe, hd] at hx
          have : j = d := by injection hx with h; exact h.symm
          omega
        rw [sparseGet_set_ne s.sparse e x none hxe]
        exact hx
      · rw [if_neg hjlt] at hjx
        exact absurd hjx (by simp)
    · intro i j hij
      have hie : i ≠ e := by
        intro hie
        rw [hie, sparseGet_set_none_self] at hij
        exact absurd hij (by simp)
      rw [sparseGet_set_ne s.sparse e i none hie] at hij
      have hji := h3 i j hij
      have hjn : j < s.entities.length := getElem?_some_lt hji
      have hjd : j ≠ d := by
        intro hjd
        rw [hjd, hde] at hji
        simp only [Option.some.injEq] at hji
        exact hie hji.symm
      rw [swapRemove_getElem? s.entities d j hdn, if_pos (by omega),
        if_neg hjd]
      exact hji
    · intro hlt
      omega
  · rw [if_neg hcase]
    have hdlt : d < s.entities.length - 1 := by omega
    have hn1 : s.entities.length - 1 < s.entities.length := by omega
    obtain ⟨lastv, hlastEq⟩ :
        ∃ lastv, s.entities[s.entities.length - 1]? = some lastv :=
      ⟨_, List.getElem?_eq_getElem hn1⟩
    have hswap : (swapRemove s.entities d)[d]?
        = some lastv := by
      rw [swapRemove_getElem? s.entities d d hdn, if_pos hdlt, if_pos rfl]
      exact hlastEq
    have hlast2 : sparseGet s.sparse lastv
        = some (s.entities.length - 1) :=
      h2 (s.entities.length - 1) _ hlastEq
    have hlaste : lastv ≠ e := by
      intro hh
      rw [hh, hd] at hlast2
      simp only [Option.some.injEq] at hlast2
      omega
    have hsp1 : sparseGet (s.sparse.set e none)
        lastv
        = some (s.entities.length - 1) := by
      rw [sparseGet_set_ne s.sparse e _ none hlaste]
      exact hlast2
    rw [hswap]
    dsimp only
    rw [hsp1]
    dsimp only
    have hlastlen : lastv
        < (s.sparse.set e none).length := by
      have := sparseGet_lt_length s.sparse _ _ hlast2
      simpa using this
    have hchar : ∀ x, sparseGet
        ((s.sparse.set e none).set
          lastv (some d)) x
      = if x = lastv then some d
        else if x = e then none
        else sparseGet s.sparse x := by
      intro x
      by_cases hxl : x = lastv
      · subst hxl
        rw [if_pos rfl]
        exact sparseGet_set_some_self _ _ d hlastlen
      · rw [if_neg hxl, sparseGet_set_ne _ _ _ _ hxl]
        by_cases hxe : x = e
        · subst hxe
          rw [if_pos rfl, sparseGet_set_none_self]
        · rw [if_neg hxe, sparseGet_set_ne _ _ _ _ hxe]
    refine ⟨⟨?_, ?_, ?_⟩, ?_⟩
    · rw [swapRemove_length s.dense d hdd, swapRemove_length s.entities d hdn,
        hlen]
    · intro j x hjx
      rw [swapRemove_getElem? s.entities d j hdn] at hjx
      by_cases hjlt : j < s.entities.length - 1
      · rw [if_pos hjlt] at hjx
        rw [hchar]
        by_cases hjd : j = d
        · rw [if_pos hjd, hlastEq] at hjx
          have hx : x = lastv := by
            injection hjx with h
            exact h.symm
          rw [if_pos hx, hjd]
        · rw [if_neg hjd] at hjx
          have hx := h2 j x hjx
          have hxe : x ≠ e := by
            intro hxe
            rw [hxe, hd] at hx
            have : j = d := by injection hx with h; exact h.symm
            exact hjd this
          have hxl : x ≠ lastv := by
            intro hxl
            rw [hxl, hlast2] at hx
            have : j = s.entities.length - 1 := by
              injection hx with h
              exact h.symm
            omega
          rw [if_neg hxl, if_neg hxe]
          exact hx
      · rw [if_neg hjlt] at hjx
        exact absurd hjx (by simp)
    · intro i j hij
      rw [hchar] at hij
      by_cases hil : i = lastv
      · rw [if_pos hil] at hij
        have hj : j = d := by
          simp only [Option.some.injEq] at hij
          omega
        rw [hj, swapRemove_getElem? s.entities d d hdn, if_pos hdlt,
          if_pos rfl, hlastEq, hil]
      · rw [if_neg hil] at hij
        by_cases hie : i = e
        · rw [if_pos hie] at hij
          exact absurd hij (by simp)
        · rw [if_neg hie] at hij
          have hji := h3 i j hij
          have hjn : j < s.entities.length := getElem?_some_lt hji
          have hjd : j ≠ d := by
            intro hjd
            rw [hjd, hde] at hji
            simp only [Option.some.injEq] at hji
            exact hie hji.symm
          have hjn1 : j ≠ s.entities.length - 1 := by
            intro hjn1
            rw [hjn1, hlastEq] at hji
            simp only [Option.some.injEq] at hji
            exact hil hji.symm
          rw [swapRemove_getElem? s.entities d j hdn, if_pos (by omega),
            if_neg hjd]
          exact hji
    · intro _
      constructor
      · rw [swapRemove_getElem? s.entities d d hdn, if_pos hdlt, if_pos rfl]
      · intro la hla
        have hl : la = lastv := by
          rw [hlastEq] at hla
          injection hla with h
          exact h.symm
        rw [hchar, if_pos hl]

/-- C3: `insert`, `remove`, `remove_and_forget` and `clear` all preserve the
sparse-set invariant (`sparse[i] = some j` iff `j < dense.len` and
`entities[j] = i`); and on removal of a non-last dense row `d`, the last
dense row's entity is swapped into row `d` and its sparse slot is updated
to point at `d`. -/
theorem C3_sparse_set_invariant (s : ComponentSparseSet) (e v t : Nat)
    (hinv : cssInv s) :
    cssInv (cssInsert s e v t) ∧
    cssInv (cssRemove s e).2 ∧
    cssInv (cssRemoveAndForget s e).2 ∧
    cssInv (cssClear s) ∧
    (∀ d, sparseGet s.sparse e = some d → d + 1 < s.entities.length →
      (cssRemove s e).2.entities[d]? = s.entities[s.entities.length - 1]? ∧
      (∀ last, s.entities[s.entities.length - 1]? = some last →
        sparseGet (cssRemove s e).2.sparse last = some d)) := by
  refine ⟨cssInv_insert s e v t hinv, ?_, ?_, ?_, ?_⟩
  · unfold cssRemove sparseRemove
    cases he : sparseGet s.sparse e with
    | some d =>
        dsimp only
        exact (cssInv_removeAt s e d hinv he).1
    | none =>
        dsimp only
        exact hinv
  · unfold cssRemoveAndForget sparseRemove
    cases he : sparseGet s.sparse e with
    | some d =>
        dsimp only
        exact (cssInv_removeAt s e d hinv he).1
    | none =>
        dsimp only
        exact hinv
  · refine ⟨rfl, ?_, ?_⟩ <;> intro a b h <;> simp [cssClear, sparseGet] at h
  · intro d hd hlt
    unfold cssRemove sparseRemove
    rw [hd]
    dsimp only
    exact (cssInv_removeAt s e d hinv hd).2 hlt

theorem cssInvB_iff (s : ComponentSparseSet) : cssInvB s ↔ cssInv s := by
  constructor
  · rintro ⟨h1, h2, h3⟩
    refine ⟨h1, ?_, ?_⟩
    · intro j x hxj
      have hj : j < s.entities.length := getElem?_some_lt hxj
      have hx : s.entities.getD j 0 = x := by
        rw [List.getD_eq_getElem?_getD, hxj]
        rfl
      rw [← hx]
      exact h2 j hj
    · intro i j hij
      have hi : i < s.sparse.length := sparseGet_lt_length _ _ _ hij
      rcases h3 i hi with hnone | ⟨heq, hlt⟩
      · rw [hij] at hnone
        exact absurd hnone (by simp)
      · rw [hij] at heq hlt
        simp only [Option.getD_some] at heq hlt
        rw [List.getElem?_eq_getElem hlt]
        rw [← heq, List.getD_eq_getElem s.entities 0 hlt]
  · rintro ⟨h1, h2, h3⟩
    refine ⟨h1, ?_, ?_⟩
    · intro j hj
      refine h2 j (s.entities.getD j 0) ?_
      rw [List.getElem?_eq_getElem hj, List.getD_eq_getElem s.entities 0 hj]
    · intro i _
      cases hsi : sparseGet s.sparse i with
      | none => exact Or.inl rfl
      | some j =>
        right
        have hji := h3 i j hsi
        have hj : j < s.entities.length := getElem?_some_lt hji
        refine ⟨?_, by simp [hj]⟩
        simp only [Option.getD_some]
        rw [List.getD_eq_getElem?_getD, hji]
        rfl

/-- Witness for C3: two entities, removing the first (non-last) one. -/
theorem C3_sparse_set_invariant_witness :
    cssInv cssW ∧
    (cssInv (cssInsert cssW 4 5 6) ∧
     cssInv (cssRemove cssW 4).2 ∧
     cssInv (cssRemoveAndForget cssW 4).2 ∧
     cssInv (cssClear cssW) ∧
     (∀ d, sparseGet cssW.sparse 4 = some d →
        d + 1 < cssW.entities.length →
        (cssRemove cssW 4).2.entities[d]?
          = cssW.entities[cssW.entities.length - 1]? ∧
        (∀ last, cssW.entities[cssW.entities.length - 1]? = some last →
          sparseGet (cssRemove cssW 4).2.sparse last = some d))) :=
  ⟨(cssInvB_iff cssW).mp (by decide),
   C3_sparse_set_invariant cssW 4 5 6 ((cssInvB_iff cssW).mp (by decide))⟩

/-- C10: inserting with a change tick for an entity index already present
replaces the stored value and sets only the slot's `changed_tick`; the
`added_tick`, the entity's dense row, the dense length, the entity vector
and every sparse mapping are unchanged, and every other dense slot is
untouched. Inserting a new entity index appends a dense row with both ticks
set to the given tick, appends the entity index, and maps it to the new
row while leaving all other sparse mappings unchanged. -/
theorem C10_insert_replace_semantics (s : ComponentSparseSet) (e v t : Nat) :
    (∀ d old, sparseGet s.sparse e = some d → s.dense[d]? = some old →
      (cssInsert s e v t).sparse = s.sparse ∧
      (cssInsert s e v t).entities = s.entities ∧
      (cssInsert s e v t).dense.length = s.dense.length ∧
      (cssInsert s e v t).dense[d]? = some ⟨v, old.added, t⟩ ∧
      (∀ j, j ≠ d → (cssInsert s e v t).dense[j]? = s.dense[j]?)) ∧
    (sparseGet s.sparse e = none →
      (cssInsert s e v t).dense = s.dense ++ [⟨v, t, t⟩] ∧
      (cssInsert s e v t).entities = s.entities ++ [e] ∧
      (∀ x, sparseGet (cssInsert s e v t).sparse x
        = if x = e then some s.dense.length else sparseGet s.sparse x)) := by
  constructor
  · intro d old hd hold
    simp only [cssInsert, hd]
    have hdl : d < s.dense.length := by
      by_contra hc
      rw [List.getElem?_eq_none (by omega)] at hold
      exact absurd hold (by simp)
    refine ⟨by trivial, by trivial, by simp [columnReplace, listModify_length],
      ?_, ?_⟩
    · simp only [columnReplace, listModify, hold]
      rw [List.getElem?_set_self (by simpa using hdl)]
    · intro j hj
      simp only [columnReplace, listModify, hold]
      rw [List.getElem?_set_ne (fun hh => hj hh.symm)]
  · intro he
    simp only [cssInsert, he]
    exact ⟨by trivial, by trivial,
      fun x => sparseGet_insert s.sparse e s.dense.length x⟩

/-- Witness for C10: a one-element sparse set, replacing at entity index 0. -/
theorem C10_insert_replace_semantics_witness :
    sparseGet (ComponentSparseSet.mk [⟨9, 3, 4⟩] [0] [some 0]).sparse 0
      = some 0 ∧
    (ComponentSparseSet.mk [⟨9, 3, 4⟩] [0] [some 0]).dense[0]?
      = some ⟨9, 3, 4⟩ ∧
    ((cssInsert ⟨[⟨9, 3, 4⟩], [0], [some 0]⟩ 0 5 7).sparse
        = (ComponentSparseSet.mk [⟨9, 3, 4⟩] [0] [some 0]).sparse ∧
      (cssInsert ⟨[⟨9, 3, 4⟩], [0], [some 0]⟩ 0 5 7).entities
        = (ComponentSparseSet.mk [⟨9, 3, 4⟩] [0] [some 0]).entities ∧
      (cssInsert ⟨[⟨9, 3, 4⟩], [0], [some 0]⟩ 0 5 7).dense.length
        = (ComponentSparseSet.mk [⟨9, 3, 4⟩] [0] [some 0]).dense.length ∧
      (cssInsert ⟨[⟨9, 3, 4⟩], [0], [some 0]⟩ 0 5 7).dense[0]?
        = some ⟨5, (DenseEntry.mk 9 3 4).added, 7⟩ ∧
      (∀ j, j ≠ 0 → (cssInsert ⟨[⟨9, 3, 4⟩], [0], [some 0]⟩ 0 5 7).dense[j]?
        = (ComponentSparseSet.mk [⟨9, 3, 4⟩] [0] [some 0]).dense[j]?)) :=
  ⟨by decide, by decide,
    (C10_insert_replace_semantics ⟨[⟨9, 3, 4⟩], [0], [some 0]⟩ 0 5 7).1
      0 ⟨9, 3, 4⟩ (by decide) (by decide)⟩

theorem dedupConsec_length_le : ∀ l : List Nat,
    (dedupConsec l).length ≤ l.length := by
  intro l
  induction l with
  | nil => simp [dedupConsec]
  | cons a rest ih =>
      cases rest with
      | nil => simp [dedupConsec]
      | cons b rest2 =>
          simp only [dedupConsec]
          split
          · exact le_trans ih (by simp)
          · simpa using Nat.succ_le_succ ih

theorem dedupConsec_length_eq_iff : ∀ l : List Nat,
    (dedupConsec l).length = l.length ↔ l.Chain' (· ≠ ·) := by
  intro l
  induction l with
  | nil => simp [dedupConsec]
  | cons a rest ih =>
      cases rest with
      | nil => simp [dedupConsec]
      | cons b rest2 =>
          simp only [dedupConsec]
          by_cases hab : a = b
          · rw [if_pos hab]
            constructor
            · intro h
              have hle := dedupConsec_length_le (b :: rest2)
              simp only [List.length_cons] at h hle
              omega
            · intro h
              rw [List.chain'_cons] at h
              exact absurd hab h.1
          · rw [if_neg hab]
            rw [List.chain'_cons]
            simp only [List.length_cons]
            constructor
            · intro h
              refine ⟨hab, ih.mp ?_⟩
              simp only [List.length_cons]
              omega
            · intro h
              have hh := ih.mpr h.2
              simp only [List.length_cons] at hh
              omega

theorem chain'_lt_of_le_ne : ∀ l : List Nat,
    l.Chain' (· ≤ ·) → l.Chain' (· ≠ ·) → l.Chain' (· < ·) := by
  intro l
  induction l with
  | nil => intro _ _; simp
  | cons a rest ih =>
      cases rest with
      | nil => intro _ _; simp
      | cons b rest2 =>
          intro hle hne
          rw [List.chain'_cons] at hle hne ⊢
          exact ⟨lt_of_le_of_ne hle.1 hne.1, ih hle.2 hne.2⟩

/-- On a `≤`-sorted list, having no consecutive duplicates is the same as
having no duplicates at all. -/
theorem sorted_chain_ne_iff_nodup (l : List Nat)
    (hs : l.Pairwise (· ≤ ·)) : l.Chain' (· ≠ ·) ↔ l.Nodup := by
  constructor
  · intro hc
    have hlt : l.Chain' (· < ·) := chain'_lt_of_le_ne l hs.chain' hc
    have hplt : l.Pairwise (· < ·) := List.chain'_iff_pairwise.mp hlt
    exact hplt.imp Nat.ne_of_lt
  · intro hn
    exact List.Pairwise.chain' hn

/-- The sort-dedup length test of `BundleInfo::new` succeeds exactly on
duplicate-free id lists. -/
theorem dedup_length_iff_nodup (ids : List Nat) :
    (dedupConsec (ids.mergeSort (fun a b => decide (a ≤ b)))).length
      = ids.length ↔ ids.Nodup := by
  have hperm := List.mergeSort_perm ids (fun a b => decide (a ≤ b))
  have hsorted : (ids.mergeSort (fun a b => decide (a ≤ b))).Pairwise
      (· ≤ ·) := by
    have hms := @List.sorted_mergeSort Nat (fun a b => decide (a ≤ b))
      (fun a b c hab hbc =>
        decide_eq_true (Nat.le_trans (of_decide_eq_true hab)
          (of_decide_eq_true hbc)))
      (fun a b => by
        rcases Nat.le_total a b with h | h
        · have hh : decide (a ≤ b) = true := decide_eq_true h
          simp [hh]
        · have hh : decide (b ≤ a) = true := decide_eq_true h
          simp [hh])
      ids
    exact hms.imp (fun h => of_decide_eq_true h)
  rw [← hperm.length_eq, dedupConsec_length_eq_iff,
    sorted_chain_ne_iff_nodup _ hsorted, hperm.nodup_iff]

theorem dupsAux_mem (c : Nat) : ∀ (l seen dups : List Nat),
    (c ∈ dupsAux seen dups l
      ↔ c ∈ dups ∨ (c ∈ seen ∧ c ∈ l) ∨ 2 ≤ l.count c) := by
  intro l
  induction l with
  | nil => intro seen dups; simp [dupsAux]
  | cons x rest ih =>
      intro seen dups
      simp only [dupsAux]
      by_cases hx : x ∈ seen
      · rw [if_pos hx, ih]
        by_cases hcx : c = x
        · subst hcx
          simp [hx, List.mem_append, List.count_cons]
        · simp [List.mem_append, List.mem_cons, List.count_cons,
            Ne.symm hcx, hcx]
      · rw [if_neg hx, ih]
        by_cases hcx : c = x
        · subst hcx
          have hcnt : (c :: rest).count c = rest.count c + 1 := by
            simp [List.count_cons]
          constructor
          · intro h
            rcases h with h | ⟨hs, hr⟩ | h
            · exact Or.inl h
            · refine Or.inr (Or.inr ?_)
              rw [hcnt]
              have := List.count_pos_iff.mpr hr
              omega
            · refine Or.inr (Or.inr ?_)
              rw [hcnt]
              omega
          · intro h
            rcases h with h | ⟨hs, _⟩ | h
            · exact Or.inl h
            · exact absurd hs hx
            · rw [hcnt] at h
              by_cases hr : c ∈ rest
              · exact Or.inr (Or.inl ⟨by simp [List.mem_append], hr⟩)
              · have hz : rest.count c = 0 := by
                  by_contra hc
                  exact hr (List.count_pos_iff.mp (by omega))
                omega
        · simp [List.mem_append, List.mem_cons, List.count_cons,
            Ne.symm hcx, hcx]

/-- C6: `BundleInfo::new` fails if and only if the component-id list mentions
some id more than once; the failure message is built from the duplicated ids
(exactly those with at least two occurrences, via `dupsOf`); and on success
the ids are preserved in bundle order. -/
theorem C6_bundle_info_new (name : String) (nameOf : Nat → String)
    (ids : List Nat) (id : Nat) :
    ((∃ msg, bundleInfoNew name nameOf ids id = .error msg) ↔ ¬ ids.Nodup) ∧
    (∀ info, bundleInfoNew name nameOf ids id = .ok info →
      info.component_ids = ids ∧ info.id = id) ∧
    (∀ msg, bundleInfoNew name nameOf ids id = .error msg →
      msg = "Bundle " ++ name ++ " has duplicate components: "
        ++ String.intercalate ", " ((dupsOf ids).map nameOf)) ∧
    (∀ c, c ∈ dupsOf ids ↔ 2 ≤ ids.count c) := by
  refine ⟨?_, ?_, ?_, ?_⟩
  · unfold bundleInfoNew
    by_cases h : (dedupConsec (ids.mergeSort (fun a b => decide (a ≤ b)))).length
        = ids.length
    · rw [if_neg (by omega)]
      constructor
      · rintro ⟨msg, hmsg⟩
        exact absurd hmsg (by simp)
      · intro hnd
        exact absurd ((dedup_length_iff_nodup ids).mp h) hnd
    · rw [if_pos (by omega)]
      constructor
      · intro _
        intro hnd
        exact h ((dedup_length_iff_nodup ids).mpr hnd)
      · intro _
        exact ⟨_, rfl⟩
  · intro info hinfo
    unfold bundleInfoNew at hinfo
    split at hinfo
    · exact absurd hinfo (by simp)
    · have hh : BundleInfo.mk id ids = info := by
        injection hinfo
      rw [← hh]
      exact ⟨rfl, rfl⟩
  · intro msg hmsg
    unfold bundleInfoNew at hmsg
    split at hmsg
    · injection hmsg with h
      exact h.symm
    · exact absurd hmsg (by simp)
  · intro c
    rw [dupsOf, dupsAux_mem c ids [] []]
    simp

/-- Witness for C6: the duplicate bundle `(Position, Position)` with
component id 3, and bundle id 0. -/
theorem C6_bundle_info_new_witness :
    ((∃ msg, bundleInfoNew "(Position, Position)" (fun _ => "Position")
        [3, 3] 0 = .error msg) ↔ ¬ ([3, 3] : List Nat).Nodup) ∧
    (∀ info, bundleInfoNew "(Position, Position)" (fun _ => "Position")
        [3, 3] 0 = .ok info →
      info.component_ids = [3, 3] ∧ info.id = 0) ∧
    (∀ msg, bundleInfoNew "(Position, Position)" (fun _ => "Position")
        [3, 3] 0 = .error msg →
      msg = "Bundle " ++ "(Position, Position)"
        ++ " has duplicate components: "
        ++ String.intercalate ", "
            ((dupsOf [3, 3]).map (fun _ => "Position"))) ∧
    (∀ c, c ∈ dupsOf [3, 3] ↔ 2 ≤ ([3, 3] : List Nat).count c) :=
  C6_bundle_info_new "(Position, Position)" (fun _ => "Position") [3, 3] 0

theorem filter_map_tag (l : List Nat) (t t2 : StorageTy) :
    (l.map (fun c => (c, t))).filter (fun p => p.2 == t2)
      = if t = t2 then l.map (fun c => (c, t)) else [] := by
  induction l with
  | nil => simp
  | cons a rest ih =>
      by_cases h : t = t2
      · subst h
        simp [List.filter_cons, ih]
      · simp [List.filter_cons, ih, h]

theorem map_fst_tag (l : List Nat) (t : StorageTy) :
    (l.map (fun c => (c, t))).map Prod.fst = l := by
  induction l with
  | nil => rfl
  | cons a rest ih => simp [ih]

theorem map_fst_comp_tag (l : List Nat) (t : StorageTy) :
    List.map (Prod.fst ∘ fun c => (c, t)) l = l := by
  induction l with
  | nil => rfl
  | cons a rest ih => simp [ih]

theorem archKey_archetypeNew (id table_id : Nat) (tc sc : List Nat) :
    archKey (archetypeNew id table_id tc sc) = (tc, sc) := by
  unfold archKey archetypeNew
  rw [List.filter_append, List.filter_append, filter_map_tag, filter_map_tag,
    filter_map_tag, filter_map_tag]
  simp [map_fst_tag, map_fst_comp_tag]

theorem assocLookup_append (l : List ((List Nat × List Nat) × Nat))
    (e : (List Nat × List Nat) × Nat) (k : List Nat × List Nat) :
    assocLookup (l ++ [e]) k
      = match assocLookup l k with
        | some v => some v
        | none => if e.1 = k then some e.2 else none := by
  induction l with
  | nil => simp [assocLookup]
  | cons p rest ih =>
      rw [List.cons_append]
      simp only [assocLookup]
      split
      · rfl
      · exact ih

theorem reachable_archInv (s : Archetypes) (h : ReachableArch s) :
    archInv s := by
  induction h with
  | init =>
      intro k i
      simp [archetypesNew, assocLookup]
  | step s table_id tc sc _ ih =>
      unfold getIdOrInsert
      cases hl : assocLookup s.by_components (tc, sc) with
      | some id => exact ih
      | none =>
          intro k i
          dsimp only
          rw [assocLookup_append]
          constructor
          · intro hk
            cases hbc : assocLookup s.by_components k with
            | some v =>
                rw [hbc] at hk
                dsimp only at hk
                have hv : v = i := by injection hk
                rcases (ih k v).mp hbc with ⟨a, ha, hka⟩
                rw [← hv]
                exact ⟨a, by
                  rw [List.getElem?_append_left (getElem?_some_lt ha)]
                  exact ha, hka⟩
            | none =>
                rw [hbc] at hk
                dsimp only at hk
                split at hk
                · rename_i hek
                  have hi : s.archetypes.length = i := by injection hk
                  subst hi
                  refine ⟨archetypeNew s.archetypes.length table_id tc sc,
                    ?_, ?_⟩
                  · rw [List.getElem?_concat_length]
                  · rw [archKey_archetypeNew]
                    exact hek
                · exact absurd hk (by simp)
          · rintro ⟨a, ha, hka⟩
            rcases lt_trichotomy i s.archetypes.length with hi | hi | hi
            · rw [List.getElem?_append_left hi] at ha
              have := (ih k i).mpr ⟨a, ha, hka⟩
              rw [this]
            · subst hi
              rw [List.getElem?_concat_length] at ha
              have ha2 : archetypeNew s.archetypes.length table_id tc sc = a := by
                injection ha
              rw [← ha2, archKey_archetypeNew] at hka
              have hbc : assocLookup s.by_components k = none := by
                rw [← hka]
                exact hl
              rw [hbc]
              dsimp only
              rw [if_pos hka]
            · rw [List.getElem?_eq_none (by simp; omega)] at ha
              exact absurd ha (by simp)

/-- C9: in every reachable registry state, two distinct archetypes always
differ in their `(table ids, sparse-set ids)` identity; and a second
`get_id_or_insert` with the same key pair returns the same archetype id
without creating another archetype. -/
theorem C9_archetype_dedup (s : Archetypes) (h : ReachableArch s)
    (table_id table_id2 : Nat) (tc sc : List Nat) :
    (∀ (i j : Nat) (a b : Archetype),
      s.archetypes[i]? = some a → s.archetypes[j]? = some b →
      i ≠ j → archKey a ≠ archKey b) ∧
    ((getIdOrInsert (getIdOrInsert s table_id tc sc).2 table_id2 tc sc).1
        = (getIdOrInsert s table_id tc sc).1 ∧
      (getIdOrInsert (getIdOrInsert s table_id tc sc).2
          table_id2 tc sc).2.archetypes.length
        = (getIdOrInsert s table_id tc sc).2.archetypes.length) := by
  have hinv := reachable_archInv s h
  constructor
  · intro i j a b ha hb hij hk
    have h1 := (hinv (archKey a) i).mpr ⟨a, ha, rfl⟩
    have h2 := (hinv (archKey a) j).mpr ⟨b, hb, hk.symm⟩
    rw [h1] at h2
    have : i = j := by injection h2
    exact hij this
  · have key : ∀ s1 : Archetypes,
        assocLookup (getIdOrInsert s1 table_id tc sc).2.by_components (tc, sc)
          = some (getIdOrInsert s1 table_id tc sc).1 := by
      intro s1
      unfold getIdOrInsert
      cases hl : assocLookup s1.by_components (tc, sc) with
      | some id => exact hl
      | none =>
          dsimp only
          rw [assocLookup_append, hl]
          dsimp only
          rw [if_pos rfl]
    have hit : ∀ (s2 : Archetypes) (tid id0 : Nat),
        assocLookup s2.by_components (tc, sc) = some id0 →
        getIdOrInsert s2 tid tc sc = (id0, s2) := by
      intro s2 tid id0 h0
      unfold getIdOrInsert
      rw [h0]
    constructor
    · rw [hit _ table_id2 _ (key s)]
    · rw [hit _ table_id2 _ (key s)]

/-- Witness for C9: the freshly created registry, inserting key
`([0], [])`. -/
theorem C9_archetype_dedup_witness :
    (∀ (i j : Nat) (a b : Archetype),
      archetypesNew.archetypes[i]? = some a →
      archetypesNew.archetypes[j]? = some b →
      i ≠ j → archKey a ≠ archKey b) ∧
    ((getIdOrInsert (getIdOrInsert archetypesNew 0 [0] []).2 0 [0] []).1
        = (getIdOrInsert archetypesNew 0 [0] []).1 ∧
      (getIdOrInsert (getIdOrInsert archetypesNew 0 [0] []).2
          0 [0] []).2.archetypes.length
        = (getIdOrInsert archetypesNew 0 [0] []).2.archetypes.length) :=
  C9_archetype_dedup archetypesNew ReachableArch.init 0 0 [0] []

/-- C2 (evaluating the code at the failing input): for the archetype with
table component 0 and sparse-set component 1, adding the bundle `[2]`
(component 2 of table class, not present) makes the code compute the table
key `[0, 1, 2]` — `table_components()` returns every component id, so the
sparse-set component 1 leaks into the table key — while the claimed key is
the sorted merge of the table-class ids with the new table ids, `[0, 2]`.
The sparse key is unaffected. -/
theorem C2_table_key_divergence :
    addBundleTableKey storW archW [2] = [0, 1, 2] ∧
    specTableKey storW archW [2] = [0, 2] ∧
    addBundleTableKey storW archW [2] ≠ specTableKey storW archW [2] ∧
    addBundleSparseKey storW archW [2] = [1] := by
  refine ⟨?_, ?_, ?_, ?_⟩
  · simp [addBundleTableKey, addBundleScan, archContains, archW, storW,
      archetypeNew, tableComponents, List.mergeSort]
  · simp [specTableKey, addBundleScan, archContains, archW, storW,
      archetypeNew, List.mergeSort]
  · simp [addBundleTableKey, specTableKey, addBundleScan, archContains,
      archW, storW, archetypeNew, tableComponents, List.mergeSort]
  · simp [addBundleSparseKey, addBundleScan, archContains, archW, storW,
      archetypeNew, sparseSetComponents, List.mergeSort]

/-- C5 (evaluating the code at the failing input): `Archetypes::new()` has
the registration of the empty archetype commented out, so a freshly created
registry holds no archetype at all — in particular no archetype at id 0,
contradicting the invariant that `empty_mut` (used to route flushed entities)
relies on. -/
theorem C5_fresh_registry_missing_empty_archetype :
    archetypesGet archetypesNew 0 = none ∧
    archetypesNew.archetypes.length = 0 :=
  ⟨rfl, rfl⟩

end Paddy
